import Mathlib

/-!
Verification of the Gradebook Analyzer (`src/gradebook.py`).

The program keeps an in-memory record store: a Python dict mapping student
names to integer marks. We model such dicts as insertion-ordered association
lists `List (String × α)`; `dictInsert` reproduces Python's assignment
semantics (update in place if the key is present, append otherwise), and all
iteration (`items()`, `values()`, `keys()`) follows the list order.

Python's true division is modelled over `ℚ`.  The pure cores of the two I/O
functions `load_from_csv` and `save_results_to_csv` are modelled at the level
of parsed CSV rows (`List (List String)`), which is the interface the `csv`
module presents; `str.strip` and `int(...)` are modelled by the structural
functions `pyStrip` and `pyInt`.
-/

namespace Gradebook

/-- Python dicts with string keys: insertion-ordered association lists. -/
abbrev Dict (α : Type) : Type := List (String × α)

/-- Key list of a dict in iteration order (Python `d.keys()`). -/
def keys {α : Type} (d : Dict α) : List String := d.map Prod.fst

/-- Python assignment `d[k] = v`: if the key is present its value is updated
in place, otherwise the pair is appended at the end. -/
def dictInsert {α : Type} (d : Dict α) (k : String) (v : α) : Dict α :=
  if d.any (fun p => decide (p.1 = k)) then
    d.map (fun p => if p.1 = k then (k, v) else p)
  else d ++ [(k, v)]

/-- Python lookup `d[k]` (as an option): the value stored at key `k`. -/
def dictGet {α : Type} (d : Dict α) (k : String) : Option α :=
  (d.find? (fun p => decide (p.1 = k))).map Prod.snd

/-- Mark values of the record store in iteration order (`marks_dict.values()`). -/
def valuesOf (d : Dict Int) : List Int := d.map Prod.snd

/-- Embeds `calculate_average`: `0` on the empty dict, otherwise
`sum(scores) / len(scores)` (true division, modelled in `ℚ`). -/
def calculate_average (marks_dict : Dict Int) : ℚ :=
  if marks_dict = [] then 0
  else ((valuesOf marks_dict).sum : ℚ) / ((valuesOf marks_dict).length : ℚ)

/-- Ascending sort, modelling Python `sorted` on a list of integers. -/
def sortInts (data : List Int) : List Int :=
  List.insertionSort (fun a b => a ≤ b) data

/-- Embeds Python `statistics.median` on integers: sort ascending, return the
middle element for an odd count and the mean of the two middle elements for an
even count (this program never calls it on an empty list). -/
def statistics_median (data : List Int) : ℚ :=
  let s := sortInts data
  let n := s.length
  if n % 2 = 1 then ((s.getD (n / 2) 0 : Int) : ℚ)
  else (((s.getD (n / 2 - 1) 0 : Int) : ℚ) + ((s.getD (n / 2) 0 : Int) : ℚ)) / 2

/-- Embeds `calculate_median`. -/
def calculate_median (marks_dict : Dict Int) : ℚ :=
  if marks_dict = [] then 0 else statistics_median (valuesOf marks_dict)

/-- Embeds `get_max_score`: Python `max(marks_dict.items(), key=...)` keeps
the first item seen and replaces it only on a strictly larger mark. -/
def get_max_score (marks_dict : Dict Int) : String × Int :=
  match marks_dict with
  | [] => ("N/A", 0)
  | x :: xs => xs.foldl (fun acc y => if acc.2 < y.2 then y else acc) x

/-- Embeds `get_min_score`: keeps the first item seen and replaces it only on
a strictly smaller mark. -/
def get_min_score (marks_dict : Dict Int) : String × Int :=
  match marks_dict with
  | [] => ("N/A", 0)
  | x :: xs => xs.foldl (fun acc y => if y.2 < acc.2 then y else acc) x

/-- Per-student body of `assign_grades`: the if/elif cutoff chain. -/
def letterGrade (mark : Int) : String :=
  if 90 ≤ mark then "A"
  else if 80 ≤ mark then "B"
  else if 70 ≤ mark then "C"
  else if 60 ≤ mark then "D"
  else "F"

/-- Embeds `assign_grades`: builds `grades_dict` by inserting each student's
letter grade in iteration order. -/
def assign_grades (marks_dict : Dict Int) : Dict String :=
  marks_dict.foldl (fun grades_dict p => dictInsert grades_dict p.1 (letterGrade p.2)) []

/-- The five keys of the distribution dict, in source order. -/
def gradeKeys : List String := ["A", "B", "C", "D", "F"]

/-- Embeds `calculate_grade_distribution`: starts from the zero table over
`gradeKeys` and increments the entry of each grade value found (the source's
`if grade in distribution` guard ignores anything else). -/
def calculate_grade_distribution (grades_dict : Dict String) : String → Nat :=
  grades_dict.foldl
    (fun distribution p =>
      if p.2 ∈ gradeKeys then
        fun g => if g = p.2 then distribution p.2 + 1 else distribution g
      else distribution)
    (fun _ => 0)

/-- Embeds the `passed_students` comprehension of `print_pass_fail_summary`. -/
def passed_students (marks_dict : Dict Int) (pass_threshold : Int) : Dict Int :=
  marks_dict.filter (fun p => decide (pass_threshold ≤ p.2))

/-- Embeds the `failed_students` comprehension of `print_pass_fail_summary`. -/
def failed_students (marks_dict : Dict Int) (pass_threshold : Int) : Dict Int :=
  marks_dict.filter (fun p => decide (p.2 < pass_threshold))

/-- Models Python `str.strip()`: drop leading and trailing whitespace. -/
def pyStrip (s : String) : String :=
  ⟨((s.data.dropWhile Char.isWhitespace).reverse.dropWhile Char.isWhitespace).reverse⟩

/-- Value of a nonempty run of decimal digits; `none` on an empty list or on
any non-digit character. -/
def digitsVal (cs : List Char) : Option Nat :=
  if cs = [] then none
  else cs.foldl
    (fun acc c => acc.bind fun n =>
      if c.isDigit then some (10 * n + (c.toNat - 48)) else none)
    (some 0)

/-- Models Python `int(s)` on an already-stripped string: an optional sign
followed by one or more decimal digits; `ValueError` is `none`. -/
def pyInt (s : String) : Option Int :=
  match s.data with
  | '-' :: cs => (digitsVal cs).map (fun n => -(n : Int))
  | '+' :: cs => (digitsVal cs).map (fun n => (n : Int))
  | cs => (digitsVal cs).map (fun n => (n : Int))

/-- One iteration of the row loop of `load_from_csv`: empty rows are skipped;
an IndexError on `row[0]`/`row[1]` or a ValueError from `int` skips the row;
otherwise `marks_dict[name] = mark` with both cells stripped. -/
def processRow (marks_dict : Dict Int) (row : List String) : Dict Int :=
  if row = [] then marks_dict
  else
    match row[0]?, row[1]? with
    | some c0, some c1 =>
      match pyInt (pyStrip c1) with
      | some mark => dictInsert marks_dict (pyStrip c0) mark
      | none => marks_dict
    | _, _ => marks_dict

/-- Pure core of `load_from_csv` on the parsed rows of the file:
`next(reader)` consumes the header row (on an empty file the StopIteration it
raises is caught, yielding an empty store), then every row is processed. -/
def load_from_csv_rows : List (List String) → Dict Int
  | [] => []
  | _ :: rows => rows.foldl processRow []

/-- Strict lexicographic comparison of character lists by code point. -/
def strLtChars : List Char → List Char → Bool
  | [], [] => false
  | [], _ :: _ => true
  | _ :: _, [] => false
  | a :: as, b :: bs =>
    if a.toNat < b.toNat then true
    else if b.toNat < a.toNat then false
    else strLtChars as bs

/-- Non-strict code-point lexicographic order on strings, as compared by
Python `sorted` on the name keys. -/
def pyStrLe (a b : String) : Bool := !(strLtChars b.data a.data)

/-- Models `sorted(marks_dict.keys())` in `save_results_to_csv` and
`print_results_table`. -/
def sorted_names (marks_dict : Dict Int) : List String :=
  List.insertionSort (fun a b => pyStrLe a b = true) (keys marks_dict)

/-- Pure core of `save_results_to_csv`: the rows written to the file — the
header, then one row `[name, str(mark), grade]` per student in sorted name
order.  The source's `marks_dict[name]`/`grades_dict[name]` lookups never fail
there (the dicts share their key set); the model supplies defaults. -/
def save_results_rows (marks_dict : Dict Int) (grades_dict : Dict String) : List (List String) :=
  ["Name", "Marks", "Grade"] ::
    (sorted_names marks_dict).map (fun name =>
      [name, toString ((dictGet marks_dict name).getD 0), (dictGet grades_dict name).getD ""])

/-- Modelled from the spec: the standard statistical median — sort ascending;
for an odd count the middle value, for an even count the arithmetic mean
(linear interpolation) of the two middle values. -/
def spec_median (data : List Int) : ℚ :=
  let s := sortInts data
  let n := s.length
  if n % 2 = 1 then ((s.getD ((n - 1) / 2) 0 : Int) : ℚ)
  else (((s.getD (n / 2 - 1) 0 : Int) : ℚ) + ((s.getD (n / 2) 0 : Int) : ℚ)) / 2

/-! Basic association-list lemmas about the dict model. -/

theorem keys_append {α : Type} (d e : Dict α) : keys (d ++ e) = keys d ++ keys e := by
  simp [keys]

theorem dictGet_nil {α : Type} (k : String) : dictGet ([] : Dict α) k = none := rfl

theorem dictGet_cons {α : Type} (p : String × α) (d : Dict α) (k : String) :
    dictGet (p :: d) k = if p.1 = k then some p.2 else dictGet d k := by
  by_cases h : p.1 = k <;> simp [dictGet, List.find?_cons, h]

theorem keys_nil {α : Type} : keys ([] : Dict α) = [] := rfl

theorem keys_cons {α : Type} (p : String × α) (d : Dict α) :
    keys (p :: d) = p.1 :: keys d := rfl

theorem mem_keys {α : Type} (d : Dict α) (k : String) :
    k ∈ keys d ↔ ∃ v, (k, v) ∈ d := by
  constructor
  · intro h
    obtain ⟨⟨a, b⟩, hp, hpk⟩ := List.mem_map.mp h
    cases hpk
    exact ⟨b, hp⟩
  · rintro ⟨v, hv⟩
    exact List.mem_map.mpr ⟨(k, v), hv, rfl⟩

theorem dict_hasKey_iff {α : Type} (d : Dict α) (k : String) :
    d.any (fun p => decide (p.1 = k)) = true ↔ k ∈ keys d := by
  simp [keys, List.any_eq_true]

theorem dictGet_eq_none {α : Type} (d : Dict α) (k : String) (h : k ∉ keys d) :
    dictGet d k = none := by
  induction d with
  | nil => rfl
  | cons p rest ih =>
    rw [keys_cons, List.mem_cons] at h
    push_neg at h
    rw [dictGet_cons, if_neg (fun hc => h.1 hc.symm)]
    exact ih h.2

theorem exists_dictGet_of_mem_keys {α : Type} (d : Dict α) (k : String) (h : k ∈ keys d) :
    ∃ v, dictGet d k = some v ∧ (k, v) ∈ d := by
  induction d with
  | nil => simp [keys] at h
  | cons p rest ih =>
    obtain ⟨a, b⟩ := p
    by_cases hp : a = k
    · subst hp
      exact ⟨b, by rw [dictGet_cons, if_pos rfl], List.mem_cons_self _ _⟩
    · have hk : k ∈ keys rest := by
        rw [keys_cons, List.mem_cons] at h
        rcases h with h | h
        · exact absurd h.symm hp
        · exact h
      obtain ⟨v, hv, hm⟩ := ih hk
      refine ⟨v, ?_, List.mem_cons_of_mem _ hm⟩
      rw [dictGet_cons, if_neg hp]
      exact hv

theorem dictGet_eq_some_of_mem {α : Type} (d : Dict α) (k : String) (v : α)
    (hnd : (keys d).Nodup) (h : (k, v) ∈ d) : dictGet d k = some v := by
  induction d with
  | nil => simp at h
  | cons p rest ih =>
    obtain ⟨a, b⟩ := p
    rw [keys_cons] at hnd
    have hnd2 := List.nodup_cons.mp hnd
    rcases List.mem_cons.mp h with h | h
    · injection h with h1 h2
      subst h1
      subst h2
      rw [dictGet_cons, if_pos rfl]
    · have hk : k ∈ keys rest := (mem_keys rest k).mpr ⟨v, h⟩
      have hak : ¬(a = k) := fun hak => hnd2.1 (hak ▸ hk)
      rw [dictGet_cons, if_neg hak]
      exact ih hnd2.2 h

theorem dictInsert_fresh {α : Type} (d : Dict α) (k : String) (v : α) (h : k ∉ keys d) :
    dictInsert d k v = d ++ [(k, v)] := by
  have hany : d.any (fun p => decide (p.1 = k)) = false := by
    rw [← Bool.not_eq_true, dict_hasKey_iff]
    exact h
  simp [dictInsert, hany]

theorem keys_dictInsert {α : Type} (d : Dict α) (k : String) (v : α) :
    keys (dictInsert d k v) = if k ∈ keys d then keys d else keys d ++ [k] := by
  unfold dictInsert
  by_cases h : k ∈ keys d
  · rw [if_pos ((dict_hasKey_iff d k).mpr h), if_pos h]
    unfold keys
    rw [List.map_map]
    apply List.map_congr_left
    intro p hp
    by_cases hpk : p.1 = k <;> simp [Function.comp, hpk]
  · rw [if_neg (fun hc => h ((dict_hasKey_iff d k).mp hc)), if_neg h]
    simp [keys]

theorem mem_keys_dictInsert {α : Type} (d : Dict α) (k : String) (v : α) (a : String) :
    a ∈ keys (dictInsert d k v) ↔ a = k ∨ a ∈ keys d := by
  rw [keys_dictInsert]
  by_cases h : k ∈ keys d
  · rw [if_pos h]
    constructor
    · exact Or.inr
    · rintro (rfl | ha)
      · exact h
      · exact ha
  · rw [if_neg h, List.mem_append]
    simp [or_comm]

theorem foldl_dictInsert_fresh {α : Type} (l : Dict α) (d₀ : Dict α)
    (hd : ∀ k ∈ keys l, k ∉ keys d₀) (hn : (keys l).Nodup) :
    l.foldl (fun d p => dictInsert d p.1 p.2) d₀ = d₀ ++ l := by
  induction l generalizing d₀ with
  | nil => simp
  | cons p rest ih =>
    rw [keys_cons] at hd hn
    have hcons := List.nodup_cons.mp hn
    have hfresh : p.1 ∉ keys d₀ := hd p.1 (List.mem_cons_self _ _)
    rw [List.foldl_cons, dictInsert_fresh _ _ _ hfresh]
    have hd2 : ∀ k ∈ keys rest, k ∉ keys (d₀ ++ [(p.1, p.2)]) := by
      intro k hk
      rw [keys_append, List.mem_append]
      rintro (h | h)
      · exact hd k (List.mem_cons_of_mem _ hk) h
      · have hkp : k = p.1 := by simpa [keys] using h
        exact hcons.1 (hkp ▸ hk)
    rw [ih (d₀ ++ [(p.1, p.2)]) hd2 hcons.2]
    simp

theorem dictGet_map_value {α β : Type} (m : Dict α) (f : α → β) (k : String) :
    dictGet (m.map (fun p => (p.1, f p.2))) k = (dictGet m k).map f := by
  induction m with
  | nil => rfl
  | cons p rest ih =>
    rw [List.map_cons, dictGet_cons, dictGet_cons]
    by_cases hp : p.1 = k <;> simp [hp, ih]

theorem dictGet_map_keys {α : Type} (ks : List String) (f : String → α) (k : String) :
    dictGet (ks.map (fun n => (n, f n))) k = if k ∈ ks then some (f k) else none := by
  induction ks with
  | nil => rfl
  | cons n ns ih =>
    rw [List.map_cons, dictGet_cons]
    by_cases hn : n = k
    · subst hn
      simp
    · simp [hn, ih, Ne.symm hn]

/-! Lemmas about the grading engine. -/

theorem letterGrade_mem_gradeKeys (mark : Int) : letterGrade mark ∈ gradeKeys := by
  unfold letterGrade gradeKeys
  split_ifs <;> simp

theorem keys_map_pair {α β : Type} (m : Dict α) (f : String × α → β) :
    keys (m.map (fun p => (p.1, f p))) = keys m := by
  unfold keys
  rw [List.map_map]
  rfl

theorem assign_grades_eq_map (m : Dict Int) (h : (keys m).Nodup) :
    assign_grades m = m.map (fun p => (p.1, letterGrade p.2)) := by
  unfold assign_grades
  have step : m.foldl (fun d p => dictInsert d p.1 (letterGrade p.2)) []
      = (m.map (fun p => (p.1, letterGrade p.2))).foldl (fun d p => dictInsert d p.1 p.2) [] := by
    rw [List.foldl_map]
  rw [step, foldl_dictInsert_fresh _ _ (fun k _ => by simp [keys])
    (by rw [keys_map_pair m (fun p => letterGrade p.2)]; exact h)]
  simp

theorem mem_keys_assign_foldl (m : Dict Int) (d₀ : Dict String) (a : String) :
    a ∈ keys (m.foldl (fun d p => dictInsert d p.1 (letterGrade p.2)) d₀)
      ↔ a ∈ keys d₀ ∨ a ∈ keys m := by
  induction m generalizing d₀ with
  | nil => simp [keys]
  | cons p rest ih =>
    rw [List.foldl_cons, ih, mem_keys_dictInsert, keys_cons, List.mem_cons]
    tauto

/-! Lemmas about the maximum and minimum search. -/

theorem foldl_max_mem (xs : List (String × Int)) (acc : String × Int) :
    xs.foldl (fun a y => if a.2 < y.2 then y else a) acc = acc
      ∨ xs.foldl (fun a y => if a.2 < y.2 then y else a) acc ∈ xs := by
  induction xs generalizing acc with
  | nil => exact Or.inl rfl
  | cons y ys ih =>
    rw [List.foldl_cons]
    rcases ih (if acc.2 < y.2 then y else acc) with h | h
    · rw [h]
      by_cases hy : acc.2 < y.2
      · rw [if_pos hy]
        exact Or.inr (List.mem_cons_self _ _)
      · rw [if_neg hy]
        exact Or.inl rfl
    · exact Or.inr (List.mem_cons_of_mem _ h)

theorem foldl_max_ge_acc (xs : List (String × Int)) (acc : String × Int) :
    acc.2 ≤ (xs.foldl (fun a y => if a.2 < y.2 then y else a) acc).2 := by
  induction xs generalizing acc with
  | nil => exact le_refl _
  | cons y ys ih =>
    rw [List.foldl_cons]
    refine le_trans ?_ (ih _)
    by_cases hy : acc.2 < y.2
    · rw [if_pos hy]
      exact le_of_lt hy
    · rw [if_neg hy]

theorem foldl_max_ge_mem (xs : List (String × Int)) (acc : String × Int)
    (p : String × Int) (hp : p ∈ xs) :
    p.2 ≤ (xs.foldl (fun a y => if a.2 < y.2 then y else a) acc).2 := by
  induction xs generalizing acc with
  | nil => simp at hp
  | cons y ys ih =>
    rw [List.foldl_cons]
    rcases List.mem_cons.mp hp with rfl | hp
    · refine le_trans ?_ (foldl_max_ge_acc ys _)
      by_cases hy : acc.2 < p.2
      · rw [if_pos hy]
      · rw [if_neg hy]
        exact le_of_not_lt hy
    · exact ih _ hp

theorem foldl_max_first (xs : List (String × Int)) (acc : String × Int) :
    (acc :: xs).find?
        (fun p => decide (p.2 = (xs.foldl (fun a y => if a.2 < y.2 then y else a) acc).2))
      = some (xs.foldl (fun a y => if a.2 < y.2 then y else a) acc) := by
  induction xs generalizing acc with
  | nil => simp
  | cons y ys ih =>
    rw [List.foldl_cons]
    by_cases hy : acc.2 < y.2
    · rw [if_pos hy]
      have hgt : acc.2 < (ys.foldl (fun a y => if a.2 < y.2 then y else a) y).2 :=
        lt_of_lt_of_le hy (foldl_max_ge_acc ys y)
      rw [List.find?_cons_of_neg _ (by simp [ne_of_lt hgt]), ih y]
    · rw [if_neg hy]
      by_cases hacc : acc.2 = (ys.foldl (fun a y => if a.2 < y.2 then y else a) acc).2
      · have hhead := ih acc
        rw [List.find?_cons_of_pos _ (by simp [hacc])] at hhead
        rw [List.find?_cons_of_pos _ (by simp [hacc])]
        exact hhead
      · have hlt : acc.2 < (ys.foldl (fun a y => if a.2 < y.2 then y else a) acc).2 :=
          lt_of_le_of_ne (foldl_max_ge_acc ys acc) hacc
        have hys := ih acc
        rw [List.find?_cons_of_neg _ (by simp [hacc])] at hys
        have hyne : y.2 ≠ (ys.foldl (fun a y => if a.2 < y.2 then y else a) acc).2 :=
          ne_of_lt (lt_of_le_of_lt (le_of_not_lt hy) hlt)
        rw [List.find?_cons_of_neg _ (by simp [hacc]),
          List.find?_cons_of_neg _ (by simp [hyne]), hys]

theorem foldl_min_mem (xs : List (String × Int)) (acc : String × Int) :
    xs.foldl (fun a y => if y.2 < a.2 then y else a) acc = acc
      ∨ xs.foldl (fun a y => if y.2 < a.2 then y else a) acc ∈ xs := by
  induction xs generalizing acc with
  | nil => exact Or.inl rfl
  | cons y ys ih =>
    rw [List.foldl_cons]
    rcases ih (if y.2 < acc.2 then y else acc) with h | h
    · rw [h]
      by_cases hy : y.2 < acc.2
      · rw [if_pos hy]
        exact Or.inr (List.mem_cons_self _ _)
      · rw [if_neg hy]
        exact Or.inl rfl
    · exact Or.inr (List.mem_cons_of_mem _ h)

theorem foldl_min_le_acc (xs : List (String × Int)) (acc : String × Int) :
    (xs.foldl (fun a y => if y.2 < a.2 then y else a) acc).2 ≤ acc.2 := by
  induction xs generalizing acc with
  | nil => exact le_refl _
  | cons y ys ih =>
    rw [List.foldl_cons]
    refine le_trans (ih _) ?_
    by_cases hy : y.2 < acc.2
    · rw [if_pos hy]
      exact le_of_lt hy
    · rw [if_neg hy]

theorem foldl_min_le_mem (xs : List (String × Int)) (acc : String × Int)
    (p : String × Int) (hp : p ∈ xs) :
    (xs.foldl (fun a y => if y.2 < a.2 then y else a) acc).2 ≤ p.2 := by
  induction xs generalizing acc with
  | nil => simp at hp
  | cons y ys ih =>
    rw [List.foldl_cons]
    rcases List.mem_cons.mp hp with rfl | hp
    · refine le_trans (foldl_min_le_acc ys _) ?_
      by_cases hy : p.2 < acc.2
      · rw [if_pos hy]
      · rw [if_neg hy]
        exact le_of_not_lt hy
    · exact ih _ hp

theorem foldl_min_first (xs : List (String × Int)) (acc : String × Int) :
    (acc :: xs).find?
        (fun p => decide (p.2 = (xs.foldl (fun a y => if y.2 < a.2 then y else a) acc).2))
      = some (xs.foldl (fun a y => if y.2 < a.2 then y else a) acc) := by
  induction xs generalizing acc with
  | nil => simp
  | cons y ys ih =>
    rw [List.foldl_cons]
    by_cases hy : y.2 < acc.2
    · rw [if_pos hy]
      have hgt : (ys.foldl (fun a y => if y.2 < a.2 then y else a) y).2 < acc.2 :=
        lt_of_le_of_lt (foldl_min_le_acc ys y) hy
      rw [List.find?_cons_of_neg _ (by simp [ne_of_gt hgt]), ih y]
    · rw [if_neg hy]
      by_cases hacc : acc.2 = (ys.foldl (fun a y => if y.2 < a.2 then y else a) acc).2
      · have hhead := ih acc
        rw [List.find?_cons_of_pos _ (by simp [hacc])] at hhead
        rw [List.find?_cons_of_pos _ (by simp [hacc])]
        exact hhead
      · have hlt : (ys.foldl (fun a y => if y.2 < a.2 then y else a) acc).2 < acc.2 :=
          lt_of_le_of_ne (foldl_min_le_acc ys acc) (Ne.symm hacc)
        have hys := ih acc
        rw [List.find?_cons_of_neg _ (by simp [hacc])] at hys
        have hyne : y.2 ≠ (ys.foldl (fun a y => if y.2 < a.2 then y else a) acc).2 :=
          ne_of_gt (lt_of_lt_of_le hlt (le_of_not_lt hy))
        rw [List.find?_cons_of_neg _ (by simp [hacc]),
          List.find?_cons_of_neg _ (by simp [hyne]), hys]

/-! Lemmas about the grade distribution counter. -/

theorem distribution_foldl_count (gd : Dict String) (dist₀ : String → Nat) (g : String)
    (hg : g ∈ gradeKeys) :
    gd.foldl
        (fun distribution p =>
          if p.2 ∈ gradeKeys then
            fun x => if x = p.2 then distribution p.2 + 1 else distribution x
          else distribution)
        dist₀ g
      = dist₀ g + (gd.filter (fun p => decide (p.2 = g))).length := by
  induction gd generalizing dist₀ with
  | nil => simp
  | cons p rest ih =>
    rw [List.foldl_cons, List.filter_cons]
    by_cases hpg : p.2 ∈ gradeKeys
    · rw [if_pos hpg, ih]
      by_cases hpq : p.2 = g
      · rw [if_pos hpq.symm, if_pos (by simp [hpq]), hpq, List.length_cons]
        omega
      · rw [if_neg (fun h => hpq h.symm), if_neg (by simp [hpq])]
    · have hpq : p.2 ≠ g := fun h => hpg (h ▸ hg)
      rw [if_neg hpg, ih, if_neg (by simp [hpq])]

theorem distribution_count (gd : Dict String) (g : String) (hg : g ∈ gradeKeys) :
    calculate_grade_distribution gd g = (gd.filter (fun p => decide (p.2 = g))).length := by
  unfold calculate_grade_distribution
  rw [distribution_foldl_count gd (fun _ => 0) g hg]
  omega

theorem five_filter_lengths_sum (gd : Dict String) (h : ∀ p ∈ gd, p.2 ∈ gradeKeys) :
    (gd.filter (fun p => decide (p.2 = "A"))).length
      + (gd.filter (fun p => decide (p.2 = "B"))).length
      + (gd.filter (fun p => decide (p.2 = "C"))).length
      + (gd.filter (fun p => decide (p.2 = "D"))).length
      + (gd.filter (fun p => decide (p.2 = "F"))).length = gd.length := by
  induction gd with
  | nil => rfl
  | cons p rest ih =>
    have hp := h p (List.mem_cons_self _ _)
    have ihr := ih (fun q hq => h q (List.mem_cons_of_mem _ hq))
    simp only [List.filter_cons, List.length_cons]
    rcases (show p.2 = "A" ∨ p.2 = "B" ∨ p.2 = "C" ∨ p.2 = "D" ∨ p.2 = "F" by
      simpa [gradeKeys] using hp) with hv | hv | hv | hv | hv <;>
    · rw [hv]
      simp only [decide_eq_true_eq, if_true, if_false]
      simp
      omega

/-! Lemmas about CSV parsing, sorting and the export/import cores. -/

theorem pyInt_pyStrip_toString_nat :
    ∀ n : Nat, n ≤ 100 → pyInt (pyStrip (toString (n : Int))) = some (n : Int) := by
  decide

theorem pyInt_pyStrip_toString (v : Int) (h0 : 0 ≤ v) (h1 : v ≤ 100) :
    pyInt (pyStrip (toString v)) = some v := by
  obtain ⟨n, rfl⟩ := Int.eq_ofNat_of_zero_le h0
  exact pyInt_pyStrip_toString_nat n (by exact_mod_cast h1)

theorem mem_sorted_names (m : Dict Int) (k : String) : k ∈ sorted_names m ↔ k ∈ keys m :=
  List.mem_insertionSort _

theorem nodup_sorted_names (m : Dict Int) (h : (keys m).Nodup) : (sorted_names m).Nodup :=
  ((List.perm_insertionSort _ _).nodup_iff).mpr h

theorem keys_map_name_fun {α : Type} (ks : List String) (f : String → α) :
    keys (ks.map (fun n => (n, f n))) = ks := by
  unfold keys
  rw [List.map_map]
  exact List.map_id _

theorem processRow_record (d : Dict Int) (name cell grade : String) (v : Int)
    (hparse : pyInt (pyStrip cell) = some v) :
    processRow d [name, cell, grade] = dictInsert d (pyStrip name) v := by
  unfold processRow
  rw [if_neg (by simp)]
  simp only [List.getElem?_cons_zero, List.getElem?_cons_succ, hparse]

theorem load_save_eq (m : Dict Int) (gd : Dict String) (h1 : (keys m).Nodup)
    (h2 : ∀ p ∈ m, pyStrip p.1 = p.1) (h3 : ∀ p ∈ m, 0 ≤ p.2 ∧ p.2 ≤ 100) :
    load_from_csv_rows (save_results_rows m gd)
      = (sorted_names m).map (fun n => (n, (dictGet m n).getD 0)) := by
  show ((sorted_names m).map
      (fun name => [name, toString ((dictGet m name).getD 0), (dictGet gd name).getD ""])).foldl
      processRow [] = _
  rw [List.foldl_map]
  rw [List.foldl_ext _ (fun d n => dictInsert d n ((dictGet m n).getD 0)) [] ?_]
  · have step : (sorted_names m).foldl (fun d n => dictInsert d n ((dictGet m n).getD 0)) []
        = ((sorted_names m).map (fun n => (n, (dictGet m n).getD 0))).foldl
            (fun d p => dictInsert d p.1 p.2) [] := by
      rw [List.foldl_map]
    rw [step, foldl_dictInsert_fresh _ _ (fun k _ => by simp [keys])
      (by rw [keys_map_name_fun]; exact nodup_sorted_names m h1)]
    simp
  · intro d n hn
    have hnk : n ∈ keys m := (mem_sorted_names m n).mp hn
    obtain ⟨v, hv, hm⟩ := exists_dictGet_of_mem_keys m n hnk
    have hb := h3 (n, v) hm
    rw [processRow_record d n _ _ v
      (by rw [hv, Option.getD_some]; exact pyInt_pyStrip_toString v hb.1 hb.2)]
    rw [h2 (n, v) hm]
    show dictInsert d n v = dictInsert d n ((dictGet m n).getD 0)
    rw [hv, Option.getD_some]

theorem dictGet_load_save (m : Dict Int) (h1 : (keys m).Nodup)
    (h2 : ∀ p ∈ m, pyStrip p.1 = p.1) (h3 : ∀ p ∈ m, 0 ≤ p.2 ∧ p.2 ≤ 100) (k : String) :
    dictGet (load_from_csv_rows (save_results_rows m (assign_grades m))) k = dictGet m k := by
  rw [load_save_eq m (assign_grades m) h1 h2 h3, dictGet_map_keys]
  by_cases hk : k ∈ keys m
  · rw [if_pos ((mem_sorted_names m k).mpr hk)]
    obtain ⟨v, hv, _⟩ := exists_dictGet_of_mem_keys m k hk
    rw [hv, Option.getD_some]
  · rw [if_neg (fun hc => hk ((mem_sorted_names m k).mp hc)), dictGet_eq_none m k hk]

theorem processRow_skip (d : Dict Int) (row : List String)
    (h : (row[1]?).bind (fun c => pyInt (pyStrip c)) = none) : processRow d row = d := by
  rcases row with _ | ⟨c0, _ | ⟨c1, rest⟩⟩
  · rfl
  · rfl
  · simp only [List.getElem?_cons_succ, List.getElem?_cons_zero, Option.some_bind] at h
    unfold processRow
    rw [if_neg (by simp)]
    simp only [List.getElem?_cons_zero, List.getElem?_cons_succ, h]

theorem load_skip_splice (hdr row : List String) (rows₁ rows₂ : List (List String))
    (h : (row[1]?).bind (fun c => pyInt (pyStrip c)) = none) :
    load_from_csv_rows (hdr :: (rows₁ ++ row :: rows₂))
      = load_from_csv_rows (hdr :: (rows₁ ++ rows₂)) := by
  show (rows₁ ++ row :: rows₂).foldl processRow [] = (rows₁ ++ rows₂).foldl processRow []
  rw [List.foldl_append, List.foldl_append, List.foldl_cons, processRow_skip _ _ h]

theorem load_two_rows (hdr : List String) (n1 s1 n2 s2 : String) (m1 m2 : Int)
    (hp1 : pyInt (pyStrip s1) = some m1) (hp2 : pyInt (pyStrip s2) = some m2)
    (hne : pyStrip n1 ≠ pyStrip n2) :
    load_from_csv_rows [hdr, [n1, s1], [n2, s2]]
      = [(pyStrip n1, m1), (pyStrip n2, m2)] := by
  have e1 : processRow [] [n1, s1] = [(pyStrip n1, m1)] := by
    unfold processRow
    rw [if_neg (by simp)]
    simp only [List.getElem?_cons_zero, List.getElem?_cons_succ, hp1]
    rfl
  have e2 : processRow [(pyStrip n1, m1)] [n2, s2] = [(pyStrip n1, m1), (pyStrip n2, m2)] := by
    unfold processRow
    rw [if_neg (by simp)]
    simp only [List.getElem?_cons_zero, List.getElem?_cons_succ, hp2]
    rw [dictInsert_fresh _ _ _ (by simp [keys, Ne.symm hne])]
    rfl
  show ([[n1, s1], [n2, s2]] : List (List String)).foldl processRow [] = _
  rw [List.foldl_cons, List.foldl_cons, List.foldl_nil, e1, e2]

/-! Lemmas about the statistics engine. -/

theorem calculate_median_eq_spec (m : Dict Int) (hm : m ≠ []) :
    calculate_median m = spec_median (valuesOf m) := by
  simp only [calculate_median, statistics_median, spec_median, if_neg hm]
  by_cases hodd : (sortInts (valuesOf m)).length % 2 = 1
  · rw [if_pos hodd, if_pos hodd]
    have hidx : (sortInts (valuesOf m)).length / 2
        = ((sortInts (valuesOf m)).length - 1) / 2 := by omega
    rw [hidx]
  · rw [if_neg hodd, if_neg hodd]

theorem calculate_median_mem_of_odd (m : Dict Int) (hm : m ≠ [])
    (hodd : (valuesOf m).length % 2 = 1) :
    ∃ v, v ∈ valuesOf m ∧ calculate_median m = (v : ℚ) := by
  have hlen : (sortInts (valuesOf m)).length = (valuesOf m).length :=
    (List.perm_insertionSort _ _).length_eq
  have hidx : (sortInts (valuesOf m)).length / 2 < (sortInts (valuesOf m)).length := by
    omega
  refine ⟨(sortInts (valuesOf m)).getD ((sortInts (valuesOf m)).length / 2) 0, ?_, ?_⟩
  · rw [List.getD_eq_getElem _ _ hidx]
    exact (List.mem_insertionSort _).mp (List.getElem_mem hidx)
  · simp only [calculate_median, statistics_median, if_neg hm]
    rw [if_pos (by omega : (sortInts (valuesOf m)).length % 2 = 1)]

theorem filter_partition_length (m : Dict Int) (t : Int) :
    (passed_students m t).length + (failed_students m t).length = m.length := by
  unfold passed_students failed_students
  induction m with
  | nil => rfl
  | cons p rest ih =>
    rw [List.filter_cons, List.filter_cons]
    by_cases hp : t ≤ p.2
    · rw [if_pos (by simpa using hp), if_neg (by simpa using not_lt.mpr hp)]
      simp only [List.length_cons]
      omega
    · rw [if_neg (by simpa using hp), if_pos (by simpa using not_le.mp hp)]
      simp only [List.length_cons]
      omega

/-! The claims. -/

/-- C1: `assign_grades` maps each student's mark to a letter grade by the
fixed cutoffs — A for marks at 90 and above, B for 80 to 89, C for 70 to 79,
D for 60 to 69, F below 60; in particular 90 gives A, 89 and 80 give B, 79
gives C, 60 gives D and 59 gives F — and the grade assigned to a student is a
function of that student's mark alone. -/
theorem claim_C1_assign_grades_cutoffs (m : Dict Int) (h : (keys m).Nodup)
    (name : String) (mark : Int) :
    dictGet (assign_grades m) name = (dictGet m name).map letterGrade
    ∧ (90 ≤ mark → letterGrade mark = "A")
    ∧ (80 ≤ mark ∧ mark ≤ 89 → letterGrade mark = "B")
    ∧ (70 ≤ mark ∧ mark ≤ 79 → letterGrade mark = "C")
    ∧ (60 ≤ mark ∧ mark ≤ 69 → letterGrade mark = "D")
    ∧ (mark < 60 → letterGrade mark = "F")
    ∧ letterGrade 90 = "A" ∧ letterGrade 89 = "B" ∧ letterGrade 80 = "B"
    ∧ letterGrade 79 = "C" ∧ letterGrade 60 = "D" ∧ letterGrade 59 = "F" := by
  refine ⟨?_, ?_, ?_, ?_, ?_, ?_,
    by decide, by decide, by decide, by decide, by decide, by decide⟩
  · rw [assign_grades_eq_map m h, dictGet_map_value]
  · intro h90
    unfold letterGrade
    rw [if_pos h90]
  · rintro ⟨h80, h89⟩
    unfold letterGrade
    rw [if_neg (by omega), if_pos h80]
  · rintro ⟨h70, h79⟩
    unfold letterGrade
    rw [if_neg (by omega), if_neg (by omega), if_pos h70]
  · rintro ⟨h60, h69⟩
    unfold letterGrade
    rw [if_neg (by omega), if_neg (by omega), if_neg (by omega), if_pos h60]
  · intro hlt
    unfold letterGrade
    rw [if_neg (by omega), if_neg (by omega), if_neg (by omega), if_neg (by omega)]

/-- Witness for C1 at a concrete store. -/
theorem claim_C1_witness :
    (keys ([("Ana", 90), ("Bo", 59)] : Dict Int)).Nodup
    ∧ dictGet (assign_grades [("Ana", 90), ("Bo", 59)]) "Ana"
        = (dictGet [("Ana", 90), ("Bo", 59)] "Ana").map letterGrade :=
  ⟨by decide,
    (claim_C1_assign_grades_cutoffs [("Ana", 90), ("Bo", 59)] (by decide) "Ana" 85).1⟩

/-- C2: for every store and threshold, `passed_students` is exactly the
entries with mark at or above the threshold, `failed_students` exactly those
below, the two are disjoint, and their sizes add up to the store's size. -/
theorem claim_C2_pass_fail_partition (m : Dict Int) (t : Int) (p : String × Int) :
    (p ∈ passed_students m t ↔ p ∈ m ∧ t ≤ p.2)
    ∧ (p ∈ failed_students m t ↔ p ∈ m ∧ p.2 < t)
    ∧ ¬(p ∈ passed_students m t ∧ p ∈ failed_students m t)
    ∧ (passed_students m t).length + (failed_students m t).length = m.length := by
  refine ⟨?_, ?_, ?_, filter_partition_length m t⟩
  · simp [passed_students, List.mem_filter]
  · simp [failed_students, List.mem_filter]
  · rintro ⟨hp, hf⟩
    simp only [passed_students, failed_students, List.mem_filter,
      decide_eq_true_eq] at hp hf
    omega

/-- Witness for C2 at a concrete store, threshold and entry. -/
theorem claim_C2_witness :
    (("Ana", (40 : Int)) ∈ passed_students [("Ana", 40), ("Bo", 39)] 40 ↔
      ("Ana", (40 : Int)) ∈ ([("Ana", 40), ("Bo", 39)] : Dict Int) ∧ (40 : Int) ≤ 40)
    ∧ (passed_students [("Ana", 40), ("Bo", 39)] 40).length
        + (failed_students [("Ana", 40), ("Bo", 39)] 40).length = 2 := by
  have h := claim_C2_pass_fail_partition [("Ana", 40), ("Bo", 39)] 40 ("Ana", 40)
  exact ⟨h.1, h.2.2.2⟩

/-- C3 (amended): for every record store with distinct keys whose names carry
no leading or trailing whitespace and whose marks lie in 0..100, exporting via
the rows of `save_results_to_csv` and re-importing them with the loader's
row-processing logic reproduces exactly the same name-to-mark mapping. -/
theorem claim_C3_csv_round_trip (m : Dict Int) (h1 : (keys m).Nodup)
    (h2 : ∀ p ∈ m, pyStrip p.1 = p.1) (h3 : ∀ p ∈ m, 0 ≤ p.2 ∧ p.2 ≤ 100) (k : String) :
    dictGet (load_from_csv_rows (save_results_rows m (assign_grades m))) k = dictGet m k := by
  rw [load_save_eq m (assign_grades m) h1 h2 h3, dictGet_map_keys]
  by_cases hk : k ∈ keys m
  · rw [if_pos ((mem_sorted_names m k).mpr hk)]
    obtain ⟨v, hv, _⟩ := exists_dictGet_of_mem_keys m k hk
    rw [hv, Option.getD_some]
  · rw [if_neg (fun hc => hk ((mem_sorted_names m k).mp hc)), dictGet_eq_none m k hk]

/-- C3 counterexample: the loader strips names but the exporter does not, so a
store whose name has a leading space (marks in range) does not survive the
round trip — the claim as stated is false. -/
theorem claim_C3_counterexample :
    dictGet (load_from_csv_rows (save_results_rows [(" Alice", 50)]
        (assign_grades [(" Alice", 50)]))) " Alice"
      ≠ dictGet [(" Alice", 50)] " Alice" := by
  decide

/-- Witness for C3 at a concrete store. -/
theorem claim_C3_witness :
    (keys ([("Alice", 85), ("Bob", 42)] : Dict Int)).Nodup
    ∧ (∀ p ∈ ([("Alice", 85), ("Bob", 42)] : Dict Int), pyStrip p.1 = p.1)
    ∧ (∀ p ∈ ([("Alice", 85), ("Bob", 42)] : Dict Int), 0 ≤ p.2 ∧ p.2 ≤ 100)
    ∧ dictGet (load_from_csv_rows (save_results_rows [("Alice", 85), ("Bob", 42)]
        (assign_grades [("Alice", 85), ("Bob", 42)]))) "Bob"
      = dictGet [("Alice", 85), ("Bob", 42)] "Bob" :=
  ⟨by decide, by decide, by decide,
    claim_C3_csv_round_trip [("Alice", 85), ("Bob", 42)] (by decide) (by decide)
      (by decide) "Bob"⟩

/-- C4: the distribution computed from the grades assigned to any store counts
every one of the five categories (each count is the number of students with
that grade, hence zero for unused grades), and the five counts sum to the
number of students in the input store. -/
theorem claim_C4_distribution_sums (m : Dict Int) (h : (keys m).Nodup) :
    (∀ g ∈ gradeKeys, calculate_grade_distribution (assign_grades m) g
        = ((assign_grades m).filter (fun p => decide (p.2 = g))).length)
    ∧ calculate_grade_distribution (assign_grades m) "A"
        + calculate_grade_distribution (assign_grades m) "B"
        + calculate_grade_distribution (assign_grades m) "C"
        + calculate_grade_distribution (assign_grades m) "D"
        + calculate_grade_distribution (assign_grades m) "F" = m.length := by
  have hvals : ∀ p ∈ assign_grades m, p.2 ∈ gradeKeys := by
    rw [assign_grades_eq_map m h]
    intro p hp
    obtain ⟨q, _, rfl⟩ := List.mem_map.mp hp
    exact letterGrade_mem_gradeKeys q.2
  refine ⟨fun g hg => distribution_count _ g hg, ?_⟩
  rw [distribution_count _ "A" (by simp [gradeKeys]),
    distribution_count _ "B" (by simp [gradeKeys]),
    distribution_count _ "C" (by simp [gradeKeys]),
    distribution_count _ "D" (by simp [gradeKeys]),
    distribution_count _ "F" (by simp [gradeKeys]),
    five_filter_lengths_sum _ hvals, assign_grades_eq_map m h, List.length_map]

/-- Witness for C4 at a concrete store. -/
theorem claim_C4_witness :
    (keys ([("Ana", 95), ("Bo", 64), ("Cy", 64)] : Dict Int)).Nodup
    ∧ calculate_grade_distribution (assign_grades [("Ana", 95), ("Bo", 64), ("Cy", 64)]) "A"
        + calculate_grade_distribution (assign_grades [("Ana", 95), ("Bo", 64), ("Cy", 64)]) "B"
        + calculate_grade_distribution (assign_grades [("Ana", 95), ("Bo", 64), ("Cy", 64)]) "C"
        + calculate_grade_distribution (assign_grades [("Ana", 95), ("Bo", 64), ("Cy", 64)]) "D"
        + calculate_grade_distribution (assign_grades [("Ana", 95), ("Bo", 64), ("Cy", 64)]) "F"
      = 3 :=
  ⟨by decide,
    (claim_C4_distribution_sums [("Ana", 95), ("Bo", 64), ("Cy", 64)] (by decide)).2⟩

/-- C5: on the empty store the average is 0, the median is 0, maximum and
minimum are both the pair `("N/A", 0)`, and the grade distribution derived
from it is zero at all five grades. -/
theorem claim_C5_empty_dataset :
    calculate_average [] = 0 ∧ calculate_median [] = 0
    ∧ get_max_score [] = ("N/A", 0) ∧ get_min_score [] = ("N/A", 0)
    ∧ calculate_grade_distribution (assign_grades []) "A" = 0
    ∧ calculate_grade_distribution (assign_grades []) "B" = 0
    ∧ calculate_grade_distribution (assign_grades []) "C" = 0
    ∧ calculate_grade_distribution (assign_grades []) "D" = 0
    ∧ calculate_grade_distribution (assign_grades []) "F" = 0 :=
  ⟨rfl, rfl, rfl, rfl, rfl, rfl, rfl, rfl, rfl⟩

/-- C6: on a non-empty store, `get_max_score` returns an entry of the store
whose mark bounds every mark from above, `get_min_score` one whose mark bounds
every mark from below, and in case of ties each returns the first entry in
iteration order attaining the extreme value (stated via `find?`). -/
theorem claim_C6_max_min_extremes (m : Dict Int) (hm : m ≠ []) :
    get_max_score m ∈ m
    ∧ (∀ p ∈ m, p.2 ≤ (get_max_score m).2)
    ∧ m.find? (fun p => decide (p.2 = (get_max_score m).2)) = some (get_max_score m)
    ∧ get_min_score m ∈ m
    ∧ (∀ p ∈ m, (get_min_score m).2 ≤ p.2)
    ∧ m.find? (fun p => decide (p.2 = (get_min_score m).2)) = some (get_min_score m) := by
  rcases m with _ | ⟨x, xs⟩
  · exact absurd rfl hm
  · have hmax : get_max_score (x :: xs)
        = xs.foldl (fun a y => if a.2 < y.2 then y else a) x := rfl
    have hmin : get_min_score (x :: xs)
        = xs.foldl (fun a y => if y.2 < a.2 then y else a) x := rfl
    refine ⟨?_, ?_, ?_, ?_, ?_, ?_⟩
    · rw [hmax]
      rcases foldl_max_mem xs x with h | h
      · rw [h]
        exact List.mem_cons_self _ _
      · exact List.mem_cons_of_mem _ h
    · intro p hp
      rw [hmax]
      rcases List.mem_cons.mp hp with rfl | hp
      · exact foldl_max_ge_acc xs p
      · exact foldl_max_ge_mem xs x p hp
    · rw [hmax]
      exact foldl_max_first xs x
    · rw [hmin]
      rcases foldl_min_mem xs x with h | h
      · rw [h]
        exact List.mem_cons_self _ _
      · exact List.mem_cons_of_mem _ h
    · intro p hp
      rw [hmin]
      rcases List.mem_cons.mp hp with rfl | hp
      · exact foldl_min_le_acc xs p
      · exact foldl_min_le_mem xs x p hp
    · rw [hmin]
      exact foldl_min_first xs x

/-- Witness for C6 at a concrete store with a tie for the maximum. -/
theorem claim_C6_witness :
    ([("Ana", 7), ("Bo", 9), ("Cy", 9), ("Di", 2)] : Dict Int) ≠ []
    ∧ get_max_score [("Ana", 7), ("Bo", 9), ("Cy", 9), ("Di", 2)]
        ∈ ([("Ana", 7), ("Bo", 9), ("Cy", 9), ("Di", 2)] : Dict Int)
    ∧ ([("Ana", 7), ("Bo", 9), ("Cy", 9), ("Di", 2)] : Dict Int).find?
        (fun p => decide (p.2
          = (get_max_score [("Ana", 7), ("Bo", 9), ("Cy", 9), ("Di", 2)]).2))
      = some (get_max_score [("Ana", 7), ("Bo", 9), ("Cy", 9), ("Di", 2)]) := by
  have h := claim_C6_max_min_extremes [("Ana", 7), ("Bo", 9), ("Cy", 9), ("Di", 2)] (by decide)
  exact ⟨by decide, h.1, h.2.2.1⟩

/-- C7: on a non-empty store, `calculate_median` agrees with the standard
statistical median of the marks (middle value for odd counts, mean of the two
middle values for even counts; for odd counts the median is an actual mark),
and `calculate_average` is the arithmetic mean of the marks. -/
theorem claim_C7_median_average (m : Dict Int) (hm : m ≠ []) :
    calculate_median m = spec_median (valuesOf m)
    ∧ ((valuesOf m).length % 2 = 1 →
        ∃ v, v ∈ valuesOf m ∧ calculate_median m = (v : ℚ))
    ∧ calculate_average m = ((valuesOf m).sum : ℚ) / ((valuesOf m).length : ℚ) :=
  ⟨calculate_median_eq_spec m hm,
   fun hodd => calculate_median_mem_of_odd m hm hodd,
   by unfold calculate_average; rw [if_neg hm]⟩

/-- Witness for C7 at a concrete store with an odd number of students. -/
theorem claim_C7_witness :
    ([("Ana", 3), ("Bo", 1), ("Cy", 2)] : Dict Int) ≠ []
    ∧ calculate_median [("Ana", 3), ("Bo", 1), ("Cy", 2)]
        = spec_median (valuesOf [("Ana", 3), ("Bo", 1), ("Cy", 2)])
    ∧ calculate_average [("Ana", 3), ("Bo", 1), ("Cy", 2)]
        = ((valuesOf [("Ana", 3), ("Bo", 1), ("Cy", 2)]).sum : ℚ)
          / ((valuesOf [("Ana", 3), ("Bo", 1), ("Cy", 2)]).length : ℚ) := by
  have h := claim_C7_median_average [("Ana", 3), ("Bo", 1), ("Cy", 2)] (by decide)
  exact ⟨by decide, h.1, h.2.2⟩

/-- C8 (amended): a row with fewer than two cells (for example `["Alice"]`
alone) or whose mark cell does not parse as an integer is skipped without
aborting the rest of the import, and a file whose rows after the header are
two valid rows with distinct stripped names yields exactly two records. -/
theorem claim_C8_malformed_rows (d : Dict Int) (hdr row : List String)
    (rows₁ rows₂ : List (List String)) (n1 s1 n2 s2 : String) (m1 m2 : Int)
    (hbad : row.length < 2 ∨ (row[1]?).bind (fun c => pyInt (pyStrip c)) = none)
    (hp1 : pyInt (pyStrip s1) = some m1) (hp2 : pyInt (pyStrip s2) = some m2)
    (hne : pyStrip n1 ≠ pyStrip n2) :
    processRow d row = d
    ∧ load_from_csv_rows (hdr :: (rows₁ ++ row :: rows₂))
        = load_from_csv_rows (hdr :: (rows₁ ++ rows₂))
    ∧ (load_from_csv_rows [hdr, [n1, s1], [n2, s2]]).length = 2 := by
  have hnone : (row[1]?).bind (fun c => pyInt (pyStrip c)) = none := by
    rcases hbad with hlen | hnone
    · rw [List.getElem?_eq_none (by omega)]
      rfl
    · exact hnone
  exact ⟨processRow_skip d row hnone, load_skip_splice hdr row rows₁ rows₂ hnone,
    by rw [load_two_rows hdr n1 s1 n2 s2 m1 m2 hp1 hp2 hne]; rfl⟩

/-- C8 counterexample: two valid, well-formed rows that share a name produce a
single record (the second overwrites the first), so the unamended claim that
any two valid rows yield exactly two records is false. -/
theorem claim_C8_counterexample :
    (load_from_csv_rows [["Name", "Marks"], ["Alice", "85"], ["Alice", "90"]]).length ≠ 2 := by
  decide

/-- Witness for C8 at a concrete malformed row and a concrete two-row file. -/
theorem claim_C8_witness :
    processRow [] ["Alice"] = []
    ∧ (load_from_csv_rows [["Name", "Marks"], ["Alice", "85"], ["Bob", "42"]]).length = 2 :=
  ⟨(claim_C8_malformed_rows [] ["Name", "Marks"] ["Alice"] [] [] "Alice" "85" "Bob" "42" 85 42
      (Or.inl (by decide)) (by decide) (by decide) (by decide)).1,
   (claim_C8_malformed_rows [] ["Name", "Marks"] ["Alice"] [] [] "Alice" "85" "Bob" "42" 85 42
      (Or.inl (by decide)) (by decide) (by decide) (by decide)).2.2⟩

/-- C9: the grade mapping produced by `assign_grades` has exactly the same key
set as the record store it was computed from: a name has a grade exactly when
it has a mark. -/
theorem claim_C9_same_key_set (m : Dict Int) (name : String) :
    name ∈ keys (assign_grades m) ↔ name ∈ keys m := by
  unfold assign_grades
  rw [mem_keys_assign_foldl]
  simp [keys]

/-- C10: `assign_grades` performs no range validation and is defined for every
integer mark: a mark above 100 receives the grade A and any mark below 60 —
including every negative mark — receives the grade F. -/
theorem claim_C10_no_range_validation (m : Dict Int) (h : (keys m).Nodup)
    (name : String) (mark : Int) (hmem : (name, mark) ∈ m) :
    (100 < mark → dictGet (assign_grades m) name = some "A")
    ∧ (mark < 60 → dictGet (assign_grades m) name = some "F")
    ∧ (100 < mark → letterGrade mark = "A")
    ∧ (mark < 0 → letterGrade mark = "F") := by
  have hget : dictGet (assign_grades m) name = some (letterGrade mark) := by
    rw [assign_grades_eq_map m h, dictGet_map_value,
      dictGet_eq_some_of_mem m name mark h hmem]
    rfl
  have hA : 100 < mark → letterGrade mark = "A" := by
    intro h100
    unfold letterGrade
    rw [if_pos (by omega)]
  have hF : mark < 60 → letterGrade mark = "F" := by
    intro h60
    unfold letterGrade
    rw [if_neg (by omega), if_neg (by omega), if_neg (by omega), if_neg (by omega)]
  exact ⟨fun h100 => by rw [hget, hA h100], fun h60 => by rw [hget, hF h60],
    hA, fun hneg => hF (by omega)⟩

/-- Witness for C10 at a concrete store with an out-of-range mark. -/
theorem claim_C10_witness :
    (keys ([("X", 150), ("Y", -5)] : Dict Int)).Nodup
    ∧ (("X", (150 : Int)) ∈ ([("X", 150), ("Y", -5)] : Dict Int))
    ∧ dictGet (assign_grades [("X", 150), ("Y", -5)]) "X" = some "A" :=
  ⟨by decide, by decide,
    (claim_C10_no_range_validation [("X", 150), ("Y", -5)] (by decide) "X" 150
      (by decide)).1 (by decide)⟩

end Gradebook
